import Mathlib

/-!
Shallow embedding of the `project-analyzer` VS Code extension
(`src/extension.ts`) and verification of its specification.

Modelling conventions:
  - JavaScript strings are Lean `String`s; the JS string primitives used by
    the source (`split`, `trim`, `substring(0, n)`, `includes`,
    `toLowerCase`) are re-implemented here over `List Char` by structural
    recursion so that concrete runs evaluate inside the kernel.
  - The filesystem is a tree of entries (`FSEntry`): a file carries
    `Option String` content (`none` models a read that throws), a
    directory carries its listing in readdir order.
  - The external Gemini service is a collaborator: one call's outcome is a
    `SvcResult` (thrown error, missing text, or response text), and
    `JSON.parse` is an abstract parameter `String → Option _` (it is a JS
    builtin, external to this repository).  Each analysis function also
    returns the number of service requests it issued, so that
    "no request was made" is a provable statement.
  - JS objects used as string-keyed maps (`languages`, `aiRatings`) are
    association lists in key-insertion order; assignment overwrites in
    place or appends a fresh key at the end, as JS object semantics do.
-/

set_option linter.unusedVariables false

namespace ProjectAnalyzer

/-! ### String primitives (models of the JS builtins used by the source) -/

/-- One splitting step over the character list: `splitGo sep fuel acc cs`
scans `cs`, accumulating the current segment in `acc` (reversed), and
emits a segment each time `sep` occurs.  `fuel` bounds the recursion so the
definition is structural; callers pass `cs.length + 1`, which is enough
because every step consumes at least one character when `sep ≠ []`. -/
def splitGo (sep : List Char) : Nat → List Char → List Char → List (List Char)
  | 0, acc, cs => [acc.reverse ++ cs]
  | _ + 1, acc, [] => [acc.reverse]
  | fuel + 1, acc, c :: cs =>
      if sep.isPrefixOf (c :: cs) then
        acc.reverse :: splitGo sep fuel [] ((c :: cs).drop sep.length)
      else
        splitGo sep fuel (c :: acc) cs

/-- Model of JS `s.split(sep)` for a non-empty separator (the source only
splits on `"\n"`, three backticks and a json-labelled fence). -/
def strSplit (s sep : String) : List String :=
  if sep.data = [] then [s]
  else (splitGo sep.data (s.data.length + 1) [] s.data).map fun l => String.mk l

/-- Model of JS `s.includes(sub)`: true iff splitting on `sub` produced more
than one segment, i.e. `sub` occurs in `s`. -/
def includesStr (s sub : String) : Bool :=
  2 ≤ (strSplit s sub).length

/-- Model of JS `s.substring(0, n)`: the first `n` characters. -/
def strTake (s : String) (n : Nat) : String :=
  String.mk (s.data.take n)

/-- Model of JS `s.trim()`: strip leading and trailing whitespace. -/
def strTrim (s : String) : String :=
  String.mk (((s.data.dropWhile Char.isWhitespace).reverse.dropWhile
    Char.isWhitespace).reverse)

/-- Model of JS `s.toLowerCase()` (ASCII, which covers the extensions in the
language table). -/
def strLower (s : String) : String :=
  String.mk (s.data.map Char.toLower)

/-- Model of `path.join(dir, entry)` for the simple name components the
traversal produces. -/
def joinPath (dir entry : String) : String :=
  dir ++ "/" ++ entry

/-- Model of `path.relative(root, full)` in the only situation the Walker
uses it: `full` extends `root` by at least one `/`-separated component, so
the relative path is `full` with the `root ++ "/"` prefix removed. -/
def relativeTo (root full : String) : String :=
  String.mk (full.data.drop (root.data.length + 1))

/-- Model of `path.basename`: the last `/`-separated component. -/
def basenameOf (p : String) : String :=
  (strSplit p ("/")).getLastD ("")

/-- Model of `path.extname`: the suffix of the basename from its last dot,
empty when the basename has no dot or only a leading dot. -/
def extname (p : String) : String :=
  let parts := strSplit (basenameOf p) (".")
  if parts.length ≤ 1 then ""
  else if parts.length = 2 ∧ parts.getD 0 "" = "" then ""
  else "." ++ parts.getLastD ("")

/-! ### Data model (`interface` declarations of `src/extension.ts`) -/

/-- `interface FileAnalysis` of the source. -/
structure FileAnalysis where
  rating : Int
  complexity : String
  explanation : String
  suggestions : String
deriving Repr, DecidableEq

/-- The result of `analyzeContent` (`Promise<number | string | object>` in
the source): in practice either the not-initialized sentinel string or a
`FileAnalysis`-shaped object. -/
inductive AnalyzeResult where
  | str (s : String)
  | analysis (a : FileAnalysis)
deriving Repr, DecidableEq

/-- `interface ProjectAnalysis` of the source. -/
structure ProjectAnalysis where
  overall_rating : Int
  complexity_assessment : String
  project_strengths : String
  project_weaknesses : String
  recommendations : String
deriving Repr, DecidableEq

/-- `interface ProjectInfo` of the source.  `languages` and `aiRatings` are
JS objects used as maps, modelled as association lists in key-insertion
order.  `elapsedTime` is a JS number used in exact arithmetic, modelled
as `ℚ`. -/
structure ProjectInfo where
  projectName : String
  rootPath : String
  fileCount : Nat
  directoryCount : Nat
  totalLines : Nat
  languages : List (String × Nat)
  elapsedTime : ℚ
  files : List String
  aiRatings : List (String × AnalyzeResult)
deriving Repr, DecidableEq

/-- Outcome of one `model.generateContent` call, seen from the caller:
the call threw (`err`), or returned a response whose extracted text is
`none` (no candidates/parts) or `some text`. -/
inductive SvcResult where
  | err (msg : String)
  | ok (responseText : Option String)
deriving Repr, DecidableEq

/-- Shape of a `JSON.parse` result for the per-file analysis, with each of
the four expected fields possibly absent (`undefined` in JS). -/
structure ContentJson where
  rating : Option Int
  complexity : Option String
  explanation : Option String
  suggestions : Option String
deriving Repr, DecidableEq

/-- JS `x || d` for a possibly-absent number field: `undefined` and `0` are
falsy, and both map to `d = 0`; any other number is kept. -/
def intOr (o : Option Int) (d : Int) : Int :=
  match o with
  | none => d
  | some v => if v = 0 then d else v

/-- JS `x || d` for a possibly-absent string field: `undefined` and `""`
are falsy and map to `d`; any other string is kept. -/
def strOr (o : Option String) (d : String) : String :=
  match o with
  | none => d
  | some s => if s = "" then d else s

/-! ### JS object-as-map operations -/

/-- Keys of a JS object modelled as an association list. -/
def keysOf {α : Type} (m : List (String × α)) : List String :=
  m.map Prod.fst

/-- JS property read `m[k]`: the value at the first (and, by construction,
only) occurrence of `k`, or `none` for `undefined`. -/
def getKey? {α : Type} (m : List (String × α)) (k : String) : Option α :=
  match m with
  | [] => none
  | (k', v) :: rest => if k' = k then some v else getKey? rest k

/-- JS property write `m[k] = v`: overwrite in place when `k` is present,
otherwise append the new key (JS objects keep key-insertion order). -/
def setKey {α : Type} (m : List (String × α)) (k : String) (v : α) :
    List (String × α) :=
  match m with
  | [] => [(k, v)]
  | (k', v') :: rest =>
      if k' = k then (k', v) :: rest else (k', v') :: setKey rest k v

/-- JS `m[k] = (m[k] || 0) + 1`, used for the language counters. -/
def bumpKey (m : List (String × Nat)) (k : String) : List (String × Nat) :=
  match m with
  | [] => [(k, 1)]
  | (k', v) :: rest =>
      if k' = k then (k', v + 1) :: rest else (k', v) :: bumpKey rest k

/-! ### Content Analyzer (`analyzeContent`, lines 38–107) -/

/-- The prompt template of `analyzeContent` (lines 45–62). -/
def contentPrompt (fileContent : String) : String :=
  "You are a code reviewer and complexity analyst. Analyze the following code and provide:\n" ++
  "1. A rating on a scale of 1 to 10, where 1 is very poor and 10 is excellent\n" ++
  "2. The time complexity of the code using Big O notation\n" ++
  "3. A brief explanation of the rating\n" ++
  "4. Specific, actionable suggestions for improvement\n\nCode:\n```\n" ++
  fileContent ++
  "\n```\n\nRespond with a JSON object in this exact format:\n\x7b\n" ++
  "  \"rating\": <number>,\n  \"complexity\": \"<Big O notation>\",\n" ++
  "  \"explanation\": \"<brief explanation>\",\n" ++
  "  \"suggestions\": \"<specific, actionable suggestions>\"\n\x7d"

/-- The fence-stripping step of `analyzeContent` / `analyzeProject`
(lines 76–79 and 249–252): if the response text contains a json-labelled
fence marker, keep only the trimmed substring between the first such marker
and the following plain fence marker; otherwise keep the raw text. -/
def extractJsonStr (responseText : String) : String :=
  if includesStr responseText ("```json") then
    strTrim ((strSplit ((strSplit responseText ("```json")).getD 1 "")
      ("```")).getD 0 "")
  else responseText

/-- `analyzeContent` (lines 38–107).  `genAI` and `model` are `true` when
the corresponding global is set; `svc` maps the prompt sent to the external
service to the outcome of that call; `parse` models `JSON.parse`
(`none` = throws).  The second component counts service requests issued. -/
def analyzeContent (genAI model : Bool) (svc : String → SvcResult)
    (parse : String → Option ContentJson) (filePath fileContent : String) :
    AnalyzeResult × Nat :=
  if !genAI || !model then
    (AnalyzeResult.str ("Gemini API or model not initialized."), 0)
  else
    match svc (contentPrompt fileContent) with
    | SvcResult.err msg =>
        (AnalyzeResult.analysis
          ⟨0, "N/A", "Error calling Gemini API: " ++ msg, ""⟩, 1)
    | SvcResult.ok none =>
        (AnalyzeResult.analysis
          ⟨0, "N/A", "No response from Gemini API.", ""⟩, 1)
    | SvcResult.ok (some responseText) =>
        match parse (extractJsonStr responseText) with
        | some j =>
            (AnalyzeResult.analysis
              ⟨intOr j.rating 0, strOr j.complexity ("O(1)"),
               strOr j.explanation (""), strOr j.suggestions ("")⟩, 1)
        | none =>
            (AnalyzeResult.analysis
              ⟨0, "N/A",
               "Error parsing response: " ++ strTake responseText 100 ++ "...",
               ""⟩, 1)

/-- The per-file summary inside the aggregate prompt (lines 208–211):
for each recorded file, `"relativePath: explanation"`, falling back to the
placeholder when the stored value has no truthy `explanation` property
(in particular when it is the not-initialized sentinel string). -/
def filesSummary (pi : ProjectInfo) : String :=
  String.intercalate ("\n\n") (pi.files.map fun file =>
    file ++ ": " ++
      (match getKey? pi.aiRatings file with
       | some (AnalyzeResult.analysis a) =>
           if a.explanation = "" then "No analysis available" else a.explanation
       | some (AnalyzeResult.str _) => "No analysis available"
       | none => "No analysis available"))

/-- The prompt template of `analyzeProject` (lines 213–230). -/
def projectPrompt (pi : ProjectInfo) : String :=
  "You are a project quality analyst. Analyze this entire project and provide an overall assessment.\n\n" ++
  "Project Statistics:\n- Total Files: " ++ toString pi.fileCount ++
  "\n- Total Lines of Code: " ++ toString pi.totalLines ++
  "\n- Language Distribution: " ++
  String.intercalate (", ")
    (pi.languages.map fun p => p.1 ++ ": " ++ toString p.2 ++ " files") ++
  "\n\nIndividual File Analyses:\n" ++ filesSummary pi ++
  "\n\nProvide a comprehensive project analysis in this JSON format:\n\x7b\n" ++
  "    \"overall_rating\": <number 1-10>,\n" ++
  "    \"complexity_assessment\": \"<overall project complexity assessment>\",\n" ++
  "    \"project_strengths\": \"<list key project strengths>\",\n" ++
  "    \"project_weaknesses\": \"<list main areas for improvement>\",\n" ++
  "    \"recommendations\": \"<specific, actionable recommendations for the entire project>\"\n\x7d"

/-- `analyzeProject` (lines 196–276).  Same collaborator conventions as
`analyzeContent`; the parsed value is returned as-is (the source casts the
`JSON.parse` result with no per-field defaulting). -/
def analyzeProject (genAI model : Bool) (svc : String → SvcResult)
    (parse : String → Option ProjectAnalysis) (pi : ProjectInfo) :
    ProjectAnalysis × Nat :=
  if !genAI || !model then
    ({ overall_rating := 0, complexity_assessment := "N/A",
       project_strengths := "Gemini API or model not initialized.",
       project_weaknesses := "", recommendations := "" }, 0)
  else
    match svc (projectPrompt pi) with
    | SvcResult.err msg =>
        ({ overall_rating := 0, complexity_assessment := "N/A",
           project_strengths := "Error calling Gemini API: " ++ msg,
           project_weaknesses := "", recommendations := "" }, 1)
    | SvcResult.ok none =>
        ({ overall_rating := 0, complexity_assessment := "N/A",
           project_strengths := "No response from Gemini API.",
           project_weaknesses := "", recommendations := "" }, 1)
    | SvcResult.ok (some responseText) =>
        match parse (extractJsonStr responseText) with
        | some j => (j, 1)
        | none =>
            ({ overall_rating := 0, complexity_assessment := "N/A",
               project_strengths :=
                 "Error parsing response: " ++ strTake responseText 100 ++ "...",
               project_weaknesses := "", recommendations := "" }, 1)

/-! ### Tree Walker (`countLines`, `getLanguage`, `traverseDirectory`) -/

/-- `countLines` (lines 109–117): re-reads the file and counts the segments
of a `"\n"`-split; a read error is caught and yields 0.  The argument is
the file's content as seen by the filesystem (`none` = the read throws). -/
def countLines (content : Option String) : Nat :=
  match content with
  | none => 0
  | some fileContent => (strSplit fileContent ("\n")).length

/-- `getLanguage` (lines 119–146): the extension-to-language table. -/
def getLanguage (filePath : String) : String :=
  let ext := strLower (extname filePath)
  if ext = ".js" then "JavaScript"
  else if ext = ".ts" then "TypeScript"
  else if ext = ".html" then "HTML"
  else if ext = ".css" then "CSS"
  else if ext = ".py" then "Python"
  else if ext = ".java" then "Java"
  else if ext = ".c" then "C"
  else if ext = ".cpp" then "C++"
  else if ext = ".go" then "Go"
  else if ext = ".rs" then "Rust"
  else if ext = ".php" then "PHP"
  else if ext = ".rb" then "Ruby"
  else if ext = ".swift" then "Swift"
  else if ext = ".kt" then "Kotlin"
  else if ext = ".sh" then "Shell Script"
  else if ext = ".md" then "Markdown"
  else if ext = ".json" then "JSON"
  else if ext = ".xml" then "XML"
  else if ext = ".yaml" then "YAML"
  else if ext = ".yml" then "YAML"
  else if ext = ".tsx" then "TypeScriptReact"
  else if ext = ".jsx" then "JavaScriptReact"
  else "Unknown"

/-- A filesystem entry as the Walker sees it: a file's content is
`Option String` (`none` models a read that throws); a directory carries its
listing in the order `fs.readdirSync` returns it. -/
inductive FSEntry where
  | file (name : String) (content : Option String)
  | dir (name : String) (entries : List FSEntry)
deriving Repr

/-- The entry's name component. -/
def FSEntry.name : FSEntry → String
  | FSEntry.file n _ => n
  | FSEntry.dir n _ => n

/-- The file branch of the traversal loop (lines 177–192): bump the file
count, the language counter and the line total, append the relative path to
`files`, then try to read and analyze the file; a read error is caught and
stores the default `FileAnalysis` (lines 188–191).  `anz` is the
`analyzeContent` call as the Walker sees it, applied to the full path and
the successfully read content. -/
def processFile (anz : String → String → AnalyzeResult)
    (fullPath relativePath : String) (content : Option String)
    (pi : ProjectInfo) : ProjectInfo :=
  let pi1 := { pi with
    fileCount := pi.fileCount + 1,
    languages := bumpKey pi.languages (getLanguage fullPath),
    totalLines := pi.totalLines + countLines content,
    files := pi.files ++ [relativePath] }
  match content with
  | some fileContent =>
      { pi1 with
        aiRatings := setKey pi1.aiRatings relativePath (anz fullPath fileContent) }
  | none =>
      { pi1 with
        aiRatings := setKey pi1.aiRatings relativePath
          (AnalyzeResult.analysis ⟨0, "N/A", "Error processing file", ""⟩) }

/-- `traverseDirectory` (lines 163–194), with the `for` loop over the
directory listing made explicit as recursion on the remaining entries.
For each entry it computes the root-relative path and skips the whole entry
when ignored (line 170); a directory bumps `directoryCount` and is
traversed recursively (lines 174–176); a file is processed per
`processFile`. -/
def traverseDirectory (ign : String → Bool)
    (anz : String → String → AnalyzeResult) :
    String → ProjectInfo → List FSEntry → ProjectInfo
  | _, pi, [] => pi
  | dirPath, pi, FSEntry.file n c :: rest =>
      let fullPath := joinPath dirPath n
      let relativePath := relativeTo pi.rootPath fullPath
      traverseDirectory ign anz dirPath
        (if ign relativePath then pi
         else processFile anz fullPath relativePath c pi) rest
  | dirPath, pi, FSEntry.dir n entries :: rest =>
      let fullPath := joinPath dirPath n
      let relativePath := relativeTo pi.rootPath fullPath
      traverseDirectory ign anz dirPath
        (if ign relativePath then pi
         else traverseDirectory ign anz fullPath
           { pi with directoryCount := pi.directoryCount + 1 } entries) rest

/-- The fresh `ProjectInfo` built by the command handler (lines 419–429). -/
def initialProjectInfo (rootPath : String) : ProjectInfo :=
  { projectName := basenameOf rootPath,
    rootPath := rootPath,
    fileCount := 0,
    directoryCount := 0,
    totalLines := 0,
    languages := [],
    elapsedTime := 0,
    files := [],
    aiRatings := [] }

/-- One complete traversal run as the command handler performs it
(line 432): traverse the workspace root's entries starting from the fresh
record. -/
def runTraversal (ign : String → Bool)
    (anz : String → String → AnalyzeResult) (rootPath : String)
    (entries : List FSEntry) : ProjectInfo :=
  traverseDirectory ign anz rootPath (initialProjectInfo rootPath) entries

/-- Every file in the listing (recursively) has readable content. -/
def allReadable : List FSEntry → Bool
  | [] => true
  | FSEntry.file _ c :: rest => c.isSome && allReadable rest
  | FSEntry.dir _ entries :: rest => allReadable entries && allReadable rest

/-- All files of a listing, recursively, as `(relative path, content)`
pairs: the path is computed from `root` exactly as the Walker computes it
when it reaches the file from `dirPath`. -/
def fileContentsAt (root : String) :
    String → List FSEntry → List (String × Option String)
  | _, [] => []
  | dirPath, FSEntry.file n c :: rest =>
      (relativeTo root (joinPath dirPath n), c)
        :: fileContentsAt root dirPath rest
  | dirPath, FSEntry.dir n entries :: rest =>
      fileContentsAt root (joinPath dirPath n) entries
        ++ fileContentsAt root dirPath rest

/-! ### Report Renderer (`exportProjectInfo`, lines 278–381) -/

/-- The per-file record the renderer builds for bucketing (lines 335–339):
`rating.rating || 0` and `rating.complexity || 'O(1)'`; on the
not-initialized sentinel string both property reads are `undefined`. -/
structure FileInfo where
  name : String
  rating : Int
  complexity : String
deriving Repr, DecidableEq

/-- Lines 334–339: build the `fileInfo` for one `aiRatings` entry. -/
def toFileInfo (e : String × AnalyzeResult) : FileInfo :=
  match e with
  | (file, AnalyzeResult.str _) => ⟨file, 0, "O(1)"⟩
  | (file, AnalyzeResult.analysis a) =>
      ⟨file, intOr (some a.rating) 0, strOr (some a.complexity) ("O(1)")⟩

/-- Lines 328–348: partition the `aiRatings` entries into the high / medium
/ low quality buckets by rating thresholds, preserving iteration order. -/
def filesByQuality (entries : List (String × AnalyzeResult)) :
    List FileInfo × List FileInfo × List FileInfo :=
  entries.foldl
    (fun acc e =>
      let fi := toFileInfo e
      if 8 ≤ fi.rating then (acc.1 ++ [fi], acc.2.1, acc.2.2)
      else if 4 ≤ fi.rating then (acc.1, acc.2.1 ++ [fi], acc.2.2)
      else (acc.1, acc.2.1, acc.2.2 ++ [fi]))
    ([], [], [])

/-- Membership test for the high bucket, as the claim states it. -/
def inHigh (fi : FileInfo) : Bool := 8 ≤ fi.rating

/-- Membership test for the medium bucket, as the claim states it. -/
def inMedium (fi : FileInfo) : Bool := 4 ≤ fi.rating ∧ fi.rating < 8

/-- Membership test for the low bucket, as the claim states it. -/
def inLow (fi : FileInfo) : Bool := fi.rating < 4

/-- The session-time formula of lines 294 in exact arithmetic:
`Date.now() / 1000 - (Date.now() / 1000 - projectInfo.elapsedTime)`, with
the two `Date.now()` readings passed explicitly. -/
def sessionTime (now1 now2 elapsed : ℚ) : ℚ :=
  now1 / 1000 - (now2 / 1000 - elapsed)

/-! ### Helper lemmas -/

theorem keysOf_nil {α : Type} : keysOf ([] : List (String × α)) = [] := rfl

theorem keysOf_cons {α : Type} (p : String × α) (m : List (String × α)) :
    keysOf (p :: m) = p.1 :: keysOf m := rfl

theorem getKey?_setKey {α : Type} (m : List (String × α)) (k a : String)
    (v : α) :
    getKey? (setKey m k v) a = if a = k then some v else getKey? m a := by
  induction m with
  | nil =>
      by_cases h : a = k
      · subst h
        simp [setKey, getKey?]
      · have h' : (k = a) = False := eq_false fun hh => h hh.symm
        simp [setKey, getKey?, h, h']
  | cons hd tl ih =>
      obtain ⟨k', v'⟩ := hd
      by_cases hk : k' = k
      · subst hk
        by_cases ha : a = k'
        · subst ha
          simp [setKey, getKey?]
        · have h' : (k' = a) = False := eq_false fun hh => ha hh.symm
          simp [setKey, getKey?, ha, h']
      · by_cases ha : k' = a
        · subst ha
          have h' : (k' = k) = False := eq_false hk
          simp [setKey, getKey?, hk, h']
        · simp [setKey, getKey?, hk, ha, ih]

theorem mem_keysOf_setKey {α : Type} (m : List (String × α)) (k a : String)
    (v : α) :
    a ∈ keysOf (setKey m k v) ↔ a ∈ keysOf m ∨ a = k := by
  induction m with
  | nil => simp [setKey, keysOf]
  | cons hd tl ih =>
      obtain ⟨k', v'⟩ := hd
      by_cases hk : k' = k
      · subst hk
        simp [setKey, keysOf_cons, List.mem_cons]
        tauto
      · simp only [setKey, if_neg hk, keysOf_cons, List.mem_cons]
        rw [ih]
        tauto

theorem nodup_keysOf_setKey {α : Type} (m : List (String × α)) (k : String)
    (v : α) :
    (keysOf m).Nodup → (keysOf (setKey m k v)).Nodup := by
  induction m with
  | nil =>
      intro _
      simp [setKey, keysOf]
  | cons hd tl ih =>
      obtain ⟨k', v'⟩ := hd
      intro h
      simp only [keysOf_cons, List.nodup_cons] at h
      by_cases hk : k' = k
      · subst hk
        simpa [setKey, keysOf_cons, List.nodup_cons] using h
      · simp only [setKey, if_neg hk, keysOf_cons, List.nodup_cons]
        refine ⟨fun hmem => ?_, ih h.2⟩
        rcases (mem_keysOf_setKey tl k k' v).mp hmem with h1 | h2
        · exact h.1 h1
        · exact hk h2

/-- Invariant-preservation combinator for the Walker: any property of the
accumulator preserved by `processFile` (for arbitrary content) and by the
directory-count bump is preserved by a whole traversal. -/
theorem traverseDirectory_pres (ign : String → Bool)
    (anz : String → String → AnalyzeResult) (P : ProjectInfo → Prop)
    (hfile : ∀ full rel c pi, P pi → P (processFile anz full rel c pi))
    (hdir : ∀ pi : ProjectInfo,
      P pi → P { pi with directoryCount := pi.directoryCount + 1 }) :
    ∀ dirPath pi es, P pi → P (traverseDirectory ign anz dirPath pi es)
  | dirPath, pi, [], h => by
      simpa only [traverseDirectory] using h
  | dirPath, pi, FSEntry.file n c :: rest, h => by
      simp only [traverseDirectory]
      refine traverseDirectory_pres ign anz P hfile hdir dirPath _ rest ?_
      split
      · exact h
      · exact hfile _ _ _ _ h
  | dirPath, pi, FSEntry.dir n entries :: rest, h => by
      simp only [traverseDirectory]
      refine traverseDirectory_pres ign anz P hfile hdir dirPath _ rest ?_
      split
      · exact h
      · exact traverseDirectory_pres ign anz P hfile hdir (joinPath dirPath n) _
          entries (hdir _ h)
termination_by dirPath pi es h => sizeOf es

/-- Variant of the preservation combinator for trees in which every file is
readable: `processFile` only needs to preserve the property for
successfully read content. -/
theorem traverseDirectory_pres_readable (ign : String → Bool)
    (anz : String → String → AnalyzeResult) (P : ProjectInfo → Prop)
    (hfile : ∀ full rel c pi, P pi → P (processFile anz full rel (some c) pi))
    (hdir : ∀ pi : ProjectInfo,
      P pi → P { pi with directoryCount := pi.directoryCount + 1 }) :
    ∀ dirPath pi es, allReadable es = true → P pi →
      P (traverseDirectory ign anz dirPath pi es)
  | dirPath, pi, [], _, h => by
      simpa only [traverseDirectory] using h
  | dirPath, pi, FSEntry.file n c :: rest, hr, h => by
      simp only [allReadable, Bool.and_eq_true] at hr
      obtain ⟨hc, hrest⟩ := hr
      simp only [traverseDirectory]
      refine traverseDirectory_pres_readable ign anz P hfile hdir dirPath _ rest
        hrest ?_
      split
      · exact h
      · obtain ⟨cc, rfl⟩ := Option.isSome_iff_exists.mp hc
        exact hfile _ _ _ _ h
  | dirPath, pi, FSEntry.dir n entries :: rest, hr, h => by
      simp only [allReadable, Bool.and_eq_true] at hr
      simp only [traverseDirectory]
      refine traverseDirectory_pres_readable ign anz P hfile hdir dirPath _ rest
        hr.2 ?_
      split
      · exact h
      · exact traverseDirectory_pres_readable ign anz P hfile hdir
          (joinPath dirPath n) _ entries hr.1 (hdir _ h)
termination_by dirPath pi es hr h => sizeOf es

theorem processFile_files (anz : String → String → AnalyzeResult)
    (full rel : String) (c : Option String) (pi : ProjectInfo) :
    (processFile anz full rel c pi).files = pi.files ++ [rel] := by
  cases c <;> rfl

theorem processFile_aiRatings_some (anz : String → String → AnalyzeResult)
    (full rel fc : String) (pi : ProjectInfo) :
    (processFile anz full rel (some fc) pi).aiRatings
      = setKey pi.aiRatings rel (anz full fc) := rfl

theorem processFile_aiRatings_none (anz : String → String → AnalyzeResult)
    (full rel : String) (pi : ProjectInfo) :
    (processFile anz full rel none pi).aiRatings
      = setKey pi.aiRatings rel
          (AnalyzeResult.analysis ⟨0, "N/A", "Error processing file", ""⟩) := rfl

theorem processFile_totalLines (anz : String → String → AnalyzeResult)
    (full rel : String) (c : Option String) (pi : ProjectInfo) :
    (processFile anz full rel c pi).totalLines
      = pi.totalLines + countLines c := by
  cases c <;> rfl

theorem processFile_elapsedTime (anz : String → String → AnalyzeResult)
    (full rel : String) (c : Option String) (pi : ProjectInfo) :
    (processFile anz full rel c pi).elapsedTime = pi.elapsedTime := by
  cases c <;> rfl

theorem processFile_rootPath (anz : String → String → AnalyzeResult)
    (full rel : String) (c : Option String) (pi : ProjectInfo) :
    (processFile anz full rel c pi).rootPath = pi.rootPath := by
  cases c <;> rfl

/-- The Walker never writes `rootPath`: a traversal returns it
unchanged. -/
theorem traverseDirectory_rootPath (ign : String → Bool)
    (anz : String → String → AnalyzeResult) (dirPath : String)
    (pi : ProjectInfo) (es : List FSEntry) :
    (traverseDirectory ign anz dirPath pi es).rootPath = pi.rootPath :=
  traverseDirectory_pres ign anz (fun x => x.rootPath = pi.rootPath)
    (fun full rel c pj h => by
      show (processFile anz full rel c pj).rootPath = pi.rootPath
      rw [processFile_rootPath]
      exact h)
    (fun pj h => h)
    dirPath pi es rfl

/-- The Walker never writes `elapsedTime`: a traversal returns it
unchanged. -/
theorem traverseDirectory_elapsedTime (ign : String → Bool)
    (anz : String → String → AnalyzeResult) (dirPath : String)
    (pi : ProjectInfo) (es : List FSEntry) :
    (traverseDirectory ign anz dirPath pi es).elapsedTime = pi.elapsedTime :=
  traverseDirectory_pres ign anz (fun x => x.elapsedTime = pi.elapsedTime)
    (fun full rel c pj h => by
      show (processFile anz full rel c pj).elapsedTime = pi.elapsedTime
      rw [processFile_elapsedTime]
      exact h)
    (fun pj h => h)
    dirPath pi es rfl

/-- When `genAI` or `model` is unset, `analyzeContent` short-circuits to
the sentinel string and issues no request. -/
theorem analyzeContent_uninit (genAI model : Bool) (svc : String → SvcResult)
    (parse : String → Option ContentJson) (filePath fileContent : String)
    (h : genAI = false ∨ model = false) :
    analyzeContent genAI model svc parse filePath fileContent
      = (AnalyzeResult.str ("Gemini API or model not initialized."), 0) := by
  rcases h with h | h <;> subst h <;> simp [analyzeContent]

/-! ### Claim theorems -/

/-- C1: after every completed traversal run started from the fresh record,
the set of keys of `aiRatings` equals the set of relative paths in `files`
(each recorded path has an entry, and no entry exists for an unrecorded
path), and the keys are pairwise distinct, so each recorded path has
exactly one `aiRatings` entry. -/
theorem claim1_lockstep (ign : String → Bool)
    (anz : String → String → AnalyzeResult) (rootPath : String)
    (entries : List FSEntry) :
    (∀ k, k ∈ keysOf (runTraversal ign anz rootPath entries).aiRatings ↔
      k ∈ (runTraversal ign anz rootPath entries).files)
    ∧ (keysOf (runTraversal ign anz rootPath entries).aiRatings).Nodup := by
  refine traverseDirectory_pres ign anz
    (fun pi => (∀ k, k ∈ keysOf pi.aiRatings ↔ k ∈ pi.files) ∧
      (keysOf pi.aiRatings).Nodup) ?_ ?_ rootPath (initialProjectInfo rootPath)
    entries ?_
  · intro full rel c pi h
    obtain ⟨hiff, hnd⟩ := h
    cases c with
    | none =>
        refine ⟨fun k => ?_, ?_⟩
        · rw [processFile_aiRatings_none, processFile_files,
            mem_keysOf_setKey]
          simp [hiff k]
        · rw [processFile_aiRatings_none]
          exact nodup_keysOf_setKey _ _ _ hnd
    | some fc =>
        refine ⟨fun k => ?_, ?_⟩
        · rw [processFile_aiRatings_some, processFile_files,
            mem_keysOf_setKey]
          simp [hiff k]
        · rw [processFile_aiRatings_some]
          exact nodup_keysOf_setKey _ _ _ hnd
  · intro pi h
    exact h
  · exact ⟨fun k => by simp [initialProjectInfo, keysOf], by
      simp [initialProjectInfo, keysOf]⟩

/-- C2: a directory entry whose root-relative path is ignored is skipped
entirely: traversing a listing that starts with it is the same as
traversing the listing without it, so nothing beneath it can reach
`files`, `aiRatings`, `fileCount`, `languages` or `totalLines`. -/
theorem claim2_ignored_entry_skipped (ign : String → Bool)
    (anz : String → String → AnalyzeResult) (dirPath : String)
    (pi : ProjectInfo) (e : FSEntry) (rest : List FSEntry)
    (h : ign (relativeTo pi.rootPath (joinPath dirPath (FSEntry.name e)))
      = true) :
    traverseDirectory ign anz dirPath pi (e :: rest)
      = traverseDirectory ign anz dirPath pi rest := by
  cases e with
  | file n c =>
      simp only [FSEntry.name] at h
      simp only [traverseDirectory]
      rw [if_pos h]
  | dir n entries =>
      simp only [FSEntry.name] at h
      simp only [traverseDirectory]
      rw [if_pos h]

theorem claim2_witness :
    traverseDirectory (fun r => r == "skip")
      (fun _ _ => AnalyzeResult.str ("x")) ("root")
      (initialProjectInfo ("root"))
      [FSEntry.dir ("skip") [FSEntry.file ("a.txt") (some ("x"))]]
    = traverseDirectory (fun r => r == "skip")
      (fun _ _ => AnalyzeResult.str ("x")) ("root")
      (initialProjectInfo ("root")) [] :=
  claim2_ignored_entry_skipped (fun r => r == "skip")
    (fun _ _ => AnalyzeResult.str ("x")) ("root") (initialProjectInfo ("root"))
    (FSEntry.dir ("skip") [FSEntry.file ("a.txt") (some ("x"))]) []
    (by decide)

/-- C8: the session time printed by the report is
`Date.now() / 1000 - (Date.now() / 1000 - elapsedTime)`; in exact
arithmetic with both `Date.now()` readings equal the two timestamp terms
cancel, leaving `elapsedTime`, which is `0` after every traversal run, so
the printed session time is `0` for every run. -/
theorem claim8_sessionTime_zero (t : ℚ) (ign : String → Bool)
    (anz : String → String → AnalyzeResult) (rootPath : String)
    (entries : List FSEntry) :
    sessionTime t t ((runTraversal ign anz rootPath entries).elapsedTime) = 0
    ∧ (∀ now e : ℚ, sessionTime now now e = e) := by
  constructor
  · rw [runTraversal, traverseDirectory_elapsedTime]
    show sessionTime t t 0 = 0
    simp [sessionTime]
  · intro now e
    simp [sessionTime]

/-- C3: whenever the service handle is uninitialized (`genAI` or `model`
unset), the per-file analysis and the project aggregation both return a
failure value immediately with a request count of `0`, the aggregate
result having `overall_rating 0` and the explanatory message in
`project_strengths`. -/
theorem claim3_uninit_no_request (genAI model : Bool)
    (svc : String → SvcResult) (parse : String → Option ContentJson)
    (svc2 : String → SvcResult) (parse2 : String → Option ProjectAnalysis)
    (filePath fileContent : String) (pi : ProjectInfo)
    (h : genAI = false ∨ model = false) :
    analyzeContent genAI model svc parse filePath fileContent
      = (AnalyzeResult.str ("Gemini API or model not initialized."), 0)
    ∧ analyzeProject genAI model svc2 parse2 pi
      = ({ overall_rating := 0, complexity_assessment := "N/A",
           project_strengths := "Gemini API or model not initialized.",
           project_weaknesses := "", recommendations := "" }, 0) := by
  refine ⟨analyzeContent_uninit genAI model svc parse filePath fileContent h,
    ?_⟩
  rcases h with h | h <;> subst h <;> simp [analyzeProject]

theorem claim3_witness :
    analyzeContent false true (fun _ => SvcResult.ok none) (fun _ => none)
      ("f.ts") ("x")
      = (AnalyzeResult.str ("Gemini API or model not initialized."), 0)
    ∧ analyzeProject false true (fun _ => SvcResult.ok none) (fun _ => none)
      (initialProjectInfo ("root"))
      = ({ overall_rating := 0, complexity_assessment := "N/A",
           project_strengths := "Gemini API or model not initialized.",
           project_weaknesses := "", recommendations := "" }, 0) :=
  claim3_uninit_no_request false true (fun _ => SvcResult.ok none)
    (fun _ => none) (fun _ => SvcResult.ok none) (fun _ => none) ("f.ts")
    ("x") (initialProjectInfo ("root")) (Or.inl rfl)

/-- C5: a file whose read throws is recorded with the default
`FileAnalysis` under its relative path, and the traversal then simply
continues with the remaining entries of the listing — the failure never
aborts the run. -/
theorem claim5_file_error_continues (ign : String → Bool)
    (anz : String → String → AnalyzeResult) (dirPath : String)
    (pi : ProjectInfo) (n : String) (rest : List FSEntry)
    (h : ign (relativeTo pi.rootPath (joinPath dirPath n)) = false) :
    traverseDirectory ign anz dirPath pi (FSEntry.file n none :: rest)
      = traverseDirectory ign anz dirPath
          (processFile anz (joinPath dirPath n)
            (relativeTo pi.rootPath (joinPath dirPath n)) none pi) rest
    ∧ getKey? (processFile anz (joinPath dirPath n)
          (relativeTo pi.rootPath (joinPath dirPath n)) none pi).aiRatings
        (relativeTo pi.rootPath (joinPath dirPath n))
      = some (AnalyzeResult.analysis ⟨0, "N/A", "Error processing file", ""⟩) := by
  constructor
  · simp only [traverseDirectory]
    rw [if_neg (by simp [h])]
  · rw [processFile_aiRatings_none, getKey?_setKey]
    simp

theorem claim5_witness :
    traverseDirectory (fun _ => false) (fun _ _ => AnalyzeResult.str ("x"))
        ("root") (initialProjectInfo ("root"))
        [FSEntry.file ("bad.txt") none, FSEntry.file ("ok.txt") (some ("hi"))]
      = traverseDirectory (fun _ => false) (fun _ _ => AnalyzeResult.str ("x"))
          ("root")
          (processFile (fun _ _ => AnalyzeResult.str ("x"))
            (joinPath ("root") ("bad.txt"))
            (relativeTo ("root") (joinPath ("root") ("bad.txt"))) none
            (initialProjectInfo ("root")))
          [FSEntry.file ("ok.txt") (some ("hi"))]
    ∧ getKey? (processFile (fun _ _ => AnalyzeResult.str ("x"))
          (joinPath ("root") ("bad.txt"))
          (relativeTo ("root") (joinPath ("root") ("bad.txt"))) none
          (initialProjectInfo ("root"))).aiRatings
        (relativeTo ("root") (joinPath ("root") ("bad.txt")))
      = some (AnalyzeResult.analysis ⟨0, "N/A", "Error processing file", ""⟩) :=
  claim5_file_error_continues (fun _ => false)
    (fun _ _ => AnalyzeResult.str ("x")) ("root") (initialProjectInfo ("root"))
    ("bad.txt") [FSEntry.file ("ok.txt") (some ("hi"))] rfl

/-- C6: for a successfully read file the recorded line count is the number
of `"\n"`-delimited segments of the content — `"a\nb\nc"` counts 3, the
empty content counts 1, `"a\n"` counts 2 — and the Walker adds exactly
this count to `totalLines`. -/
theorem claim6_line_count (c : String)
    (anz : String → String → AnalyzeResult) (full rel : String)
    (pi : ProjectInfo) :
    countLines (some c) = (strSplit c ("\n")).length
    ∧ (processFile anz full rel (some c) pi).totalLines
        = pi.totalLines + (strSplit c ("\n")).length
    ∧ countLines (some ("a\nb\nc")) = 3
    ∧ countLines (some ("")) = 1
    ∧ countLines (some ("a\n")) = 2 :=
  ⟨rfl, by rw [processFile_totalLines]; rfl, by decide, by decide, by decide⟩

/-- C7: the renderer puts every `aiRatings` entry in exactly one quality
bucket — the three buckets are the order-preserving partition of the
entries by rating (`≥ 8` high, `4 ≤ r < 8` medium, `< 4` low), the three
membership predicates are mutually exclusive and exhaustive, and the
boundary ratings 8 and 4 land in high and medium respectively. -/
theorem claim7_quality_buckets (entries : List (String × AnalyzeResult)) :
    filesByQuality entries
      = ((entries.map toFileInfo).filter inHigh,
         (entries.map toFileInfo).filter inMedium,
         (entries.map toFileInfo).filter inLow)
    ∧ (∀ fi : FileInfo,
        (inHigh fi = true ↔ 8 ≤ fi.rating)
        ∧ (inMedium fi = true ↔ 4 ≤ fi.rating ∧ fi.rating < 8)
        ∧ (inLow fi = true ↔ fi.rating < 4))
    ∧ (∀ fi : FileInfo,
        (inHigh fi = true ∧ inMedium fi = false ∧ inLow fi = false)
        ∨ (inHigh fi = false ∧ inMedium fi = true ∧ inLow fi = false)
        ∨ (inHigh fi = false ∧ inMedium fi = false ∧ inLow fi = true))
    ∧ filesByQuality [("f8", AnalyzeResult.analysis ⟨8, "O(n)", "", ""⟩)]
        = ([⟨"f8", 8, "O(n)"⟩], [], [])
    ∧ filesByQuality [("f4", AnalyzeResult.analysis ⟨4, "O(n)", "", ""⟩)]
        = ([], [⟨"f4", 4, "O(n)"⟩], []) := by
  refine ⟨?_, ?_, ?_, by decide, by decide⟩
  · suffices hgen : ∀ (es : List (String × AnalyzeResult))
        (h0 m0 l0 : List FileInfo),
        es.foldl
          (fun acc e =>
            let fi := toFileInfo e
            if 8 ≤ fi.rating then (acc.1 ++ [fi], acc.2.1, acc.2.2)
            else if 4 ≤ fi.rating then (acc.1, acc.2.1 ++ [fi], acc.2.2)
            else (acc.1, acc.2.1, acc.2.2 ++ [fi]))
          (h0, m0, l0)
          = (h0 ++ (es.map toFileInfo).filter inHigh,
             m0 ++ (es.map toFileInfo).filter inMedium,
             l0 ++ (es.map toFileInfo).filter inLow) by
      rw [filesByQuality, hgen entries [] [] []]
      simp
    intro es
    induction es with
    | nil => intro h0 m0 l0; simp
    | cons e tl ih =>
        intro h0 m0 l0
        simp only [List.foldl_cons, List.map_cons, List.filter_cons]
        by_cases h8 : 8 ≤ (toFileInfo e).rating
        · have hh : inHigh (toFileInfo e) = true := by
            simp only [inHigh, decide_eq_true_eq]; exact h8
          have hm : inMedium (toFileInfo e) = false := by
            simp only [inMedium, decide_eq_false_iff_not]; omega
          have hl : inLow (toFileInfo e) = false := by
            simp only [inLow, decide_eq_false_iff_not]; omega
          rw [if_pos h8, ih, hh, hm, hl]
          simp
        · by_cases h4 : 4 ≤ (toFileInfo e).rating
          · have hh : inHigh (toFileInfo e) = false := by
              simp only [inHigh, decide_eq_false_iff_not]; exact h8
            have hm : inMedium (toFileInfo e) = true := by
              simp only [inMedium, decide_eq_true_eq]; omega
            have hl : inLow (toFileInfo e) = false := by
              simp only [inLow, decide_eq_false_iff_not]; omega
            rw [if_neg h8, if_pos h4, ih, hh, hm, hl]
            simp
          · have hh : inHigh (toFileInfo e) = false := by
              simp only [inHigh, decide_eq_false_iff_not]; exact h8
            have hm : inMedium (toFileInfo e) = false := by
              simp only [inMedium, decide_eq_false_iff_not]; omega
            have hl : inLow (toFileInfo e) = true := by
              simp only [inLow, decide_eq_true_eq]; omega
            rw [if_neg h8, if_neg h4, ih, hh, hm, hl]
            simp
  · intro fi
    refine ⟨?_, ?_, ?_⟩ <;>
      simp only [inHigh, inMedium, inLow, decide_eq_true_eq]
  · intro fi
    simp only [inHigh, inMedium, inLow, decide_eq_true_eq,
      decide_eq_false_iff_not]
    omega

/-- C4: when the response text contains a json-labelled fence marker, the
per-file analyzer parses only the trimmed substring between the first
fence-open marker and the matching fence close (the result depends on
`JSON.parse` only at that substring); a parsed object with rating 7 yields
a `FileAnalysis` with rating 7, and a parse failure yields rating 0,
complexity "N/A", empty suggestions and an explanation embedding the first
100 characters of the raw response text. -/
theorem claim4_fence_stripping (responseText : String)
    (parse : String → Option ContentJson) (filePath fileContent : String)
    (hfence : includesStr responseText ("```json") = true) :
    (∀ parse2 : String → Option ContentJson,
        parse2 (extractJsonStr responseText)
          = parse (extractJsonStr responseText) →
        analyzeContent true true (fun _ => SvcResult.ok (some responseText))
          parse2 filePath fileContent
        = analyzeContent true true (fun _ => SvcResult.ok (some responseText))
          parse filePath fileContent)
    ∧ (∀ j, parse (extractJsonStr responseText) = some j →
        j.rating = some 7 →
        (analyzeContent true true (fun _ => SvcResult.ok (some responseText))
          parse filePath fileContent).1
        = AnalyzeResult.analysis
            ⟨7, strOr j.complexity ("O(1)"), strOr j.explanation (""),
             strOr j.suggestions ("")⟩)
    ∧ (parse (extractJsonStr responseText) = none →
        (analyzeContent true true (fun _ => SvcResult.ok (some responseText))
          parse filePath fileContent).1
        = AnalyzeResult.analysis
            ⟨0, "N/A",
             "Error parsing response: " ++ strTake responseText 100 ++ "...",
             ""⟩) := by
  refine ⟨?_, ?_, ?_⟩
  · intro parse2 h
    simp only [analyzeContent]
    rw [h]
  · intro j hj hr
    simp [analyzeContent, hj, hr, intOr]
  · intro hnone
    simp [analyzeContent, hnone]

theorem claim4_witness :
    includesStr ("pre```json\n\x7b\"rating\": 7\x7d\n```post") ("```json")
      = true
    ∧ extractJsonStr ("pre```json\n\x7b\"rating\": 7\x7d\n```post")
      = "\x7b\"rating\": 7\x7d"
    ∧ (analyzeContent true true
        (fun _ => SvcResult.ok
          (some ("pre```json\n\x7b\"rating\": 7\x7d\n```post")))
        (fun s => if s = "\x7b\"rating\": 7\x7d"
          then some ⟨some 7, none, none, none⟩ else none)
        ("f.ts") ("code")).1
      = AnalyzeResult.analysis ⟨7, "O(1)", "", ""⟩ := by
  refine ⟨by decide, by decide, ?_⟩
  have h := (claim4_fence_stripping
    ("pre```json\n\x7b\"rating\": 7\x7d\n```post")
    (fun s => if s = "\x7b\"rating\": 7\x7d"
      then some ⟨some 7, none, none, none⟩ else none)
    ("f.ts") ("code") (by decide)).2.1
    ⟨some 7, none, none, none⟩ (by decide) rfl
  simpa [strOr] using h

/-- C9 counterexample: with the service handle uninitialized, a file whose
read throws is recorded in `aiRatings` as the default `FileAnalysis`
record (with its `rating`, `complexity`, `explanation` and `suggestions`
fields present), not as the plain sentinel string — refuting the claim for
that processed file. -/
theorem claim9_counterexample :
    getKey? ((runTraversal (fun _ => false)
        (fun fp fc => (analyzeContent false false
          (fun _ => SvcResult.ok none) (fun _ => none) fp fc).1)
        ("root") [FSEntry.file ("bad.txt") none]).aiRatings) ("bad.txt")
      = some (AnalyzeResult.analysis ⟨0, "N/A", "Error processing file", ""⟩)
    ∧ AnalyzeResult.analysis ⟨0, "N/A", "Error processing file", ""⟩
      ≠ AnalyzeResult.str ("Gemini API or model not initialized.") := by
  constructor
  · simp [runTraversal, traverseDirectory, processFile, initialProjectInfo,
      relativeTo, joinPath, setKey, getKey?]
  · decide

/-- With the service handle uninitialized, traversal preserves the
invariant that `aiRatings` maps `k` only to the sentinel string, for any
relative path `k` at which every file of the remaining listing is
readable; an unreadable file elsewhere in the listing (stored under its
own, different key) does not disturb it. -/
theorem uninit_value_at_key (genAI model : Bool) (svc : String → SvcResult)
    (parse : String → Option ContentJson) (ign : String → Bool)
    (huninit : genAI = false ∨ model = false) (k : String) :
    ∀ dirPath pi es,
      (∀ c, (k, c) ∈ fileContentsAt pi.rootPath dirPath es →
        ∃ cc, c = some cc) →
      (∀ v, getKey? pi.aiRatings k = some v →
        v = AnalyzeResult.str ("Gemini API or model not initialized.")) →
      ∀ v, getKey? ((traverseDirectory ign
          (fun fp fc => (analyzeContent genAI model svc parse fp fc).1)
          dirPath pi es).aiRatings) k = some v →
        v = AnalyzeResult.str ("Gemini API or model not initialized.")
  | dirPath, pi, [], hk, hpi => by
      simpa only [traverseDirectory] using hpi
  | dirPath, pi, FSEntry.file n c :: rest, hk, hpi => by
      simp only [traverseDirectory]
      by_cases hig : ign (relativeTo pi.rootPath (joinPath dirPath n)) = true
      · rw [if_pos hig]
        refine uninit_value_at_key genAI model svc parse ign huninit k
          dirPath pi rest ?_ hpi
        intro c' hc'
        exact hk c' (by
          simp only [fileContentsAt]
          exact List.mem_cons_of_mem _ hc')
      · rw [if_neg hig]
        refine uninit_value_at_key genAI model svc parse ign huninit k
          dirPath _ rest ?_ ?_
        · intro c' hc'
          rw [processFile_rootPath] at hc'
          exact hk c' (by
            simp only [fileContentsAt]
            exact List.mem_cons_of_mem _ hc')
        · cases c with
          | some fc =>
              intro v hv
              rw [processFile_aiRatings_some, getKey?_setKey] at hv
              by_cases hkr : k = relativeTo pi.rootPath (joinPath dirPath n)
              · rw [if_pos hkr] at hv
                rw [analyzeContent_uninit genAI model svc parse
                  (joinPath dirPath n) fc huninit] at hv
                exact (Option.some.inj hv).symm
              · rw [if_neg hkr] at hv
                exact hpi v hv
          | none =>
              intro v hv
              rw [processFile_aiRatings_none, getKey?_setKey] at hv
              by_cases hkr : k = relativeTo pi.rootPath (joinPath dirPath n)
              · subst hkr
                obtain ⟨cc, hcc⟩ := hk none (by
                  simp only [fileContentsAt]
                  exact List.mem_cons_self _ _)
                cases hcc
              · rw [if_neg hkr] at hv
                exact hpi v hv
  | dirPath, pi, FSEntry.dir n entries :: rest, hk, hpi => by
      simp only [traverseDirectory]
      by_cases hig : ign (relativeTo pi.rootPath (joinPath dirPath n)) = true
      · rw [if_pos hig]
        refine uninit_value_at_key genAI model svc parse ign huninit k
          dirPath pi rest ?_ hpi
        intro c' hc'
        exact hk c' (by
          simp only [fileContentsAt]
          exact List.mem_append_right _ hc')
      · rw [if_neg hig]
        refine uninit_value_at_key genAI model svc parse ign huninit k
          dirPath _ rest ?_ ?_
        · intro c' hc'
          rw [traverseDirectory_rootPath] at hc'
          exact hk c' (by
            simp only [fileContentsAt]
            exact List.mem_append_right _ hc')
        · refine uninit_value_at_key genAI model svc parse ign huninit k
            (joinPath dirPath n)
            { pi with directoryCount := pi.directoryCount + 1 } entries ?_ hpi
          intro c' hc'
          exact hk c' (by
            simp only [fileContentsAt]
            exact List.mem_append_left _ hc')
termination_by dirPath pi es hk hpi => sizeOf es

/-- C9 (amended): for every file whose content is successfully read while
the service handle is uninitialized (`genAI` or `model` unset), the value
stored in `aiRatings` for that file's relative path is the plain string
"Gemini API or model not initialized." rather than a `FileAnalysis`
record.  The run may contain other, unreadable files: only the files at
the relative path in question are required to be readable.  (A file whose
read throws is instead recorded as the default `FileAnalysis` record by
the per-file catch handler.) -/
theorem claim9_uninit_stores_string (genAI model : Bool)
    (svc : String → SvcResult) (parse : String → Option ContentJson)
    (ign : String → Bool) (rootPath : String) (entries : List FSEntry)
    (huninit : genAI = false ∨ model = false) (k : String)
    (hreadable : ∀ c, (k, c) ∈ fileContentsAt rootPath rootPath entries →
      ∃ cc, c = some cc) :
    ∀ v, getKey? ((runTraversal ign
        (fun fp fc => (analyzeContent genAI model svc parse fp fc).1)
        rootPath entries).aiRatings) k = some v →
      v = AnalyzeResult.str ("Gemini API or model not initialized.") := by
  refine uninit_value_at_key genAI model svc parse ign huninit k rootPath
    (initialProjectInfo rootPath) entries hreadable ?_
  intro v hv
  simp [initialProjectInfo, getKey?] at hv

theorem claim9_amended_witness :
    (∀ c, (("good.txt"), c) ∈ fileContentsAt ("root") ("root")
        [FSEntry.file ("bad.txt") none, FSEntry.file ("good.txt")
          (some ("hi"))] →
      ∃ cc, c = some cc)
    ∧ AnalyzeResult.str ("Gemini API or model not initialized.")
      = AnalyzeResult.str ("Gemini API or model not initialized.") := by
  have hread : ∀ c, (("good.txt"), c) ∈ fileContentsAt ("root") ("root")
      [FSEntry.file ("bad.txt") none, FSEntry.file ("good.txt")
        (some ("hi"))] →
      ∃ cc, c = some cc := by
    intro c hc
    simp only [fileContentsAt, relativeTo, joinPath, List.mem_cons,
      List.not_mem_nil, or_false, Prod.mk.injEq] at hc
    rcases hc with ⟨h1, _⟩ | ⟨_, h2⟩
    · exact absurd h1 (by decide)
    · exact ⟨"hi", h2⟩
  refine ⟨hread, ?_⟩
  exact claim9_uninit_stores_string false false (fun _ => SvcResult.ok none)
    (fun _ => none) (fun _ => false) ("root")
    [FSEntry.file ("bad.txt") none, FSEntry.file ("good.txt") (some ("hi"))]
    (Or.inl rfl) ("good.txt") hread
    (AnalyzeResult.str ("Gemini API or model not initialized."))
    (by simp [runTraversal, traverseDirectory, processFile,
      initialProjectInfo, relativeTo, joinPath, setKey, getKey?,
      analyzeContent])

/-- C10: `elapsedTime` is `0` in the freshly created record and is never
assigned afterwards — the Walker returns it unchanged, and the aggregation
and report-rendering operations only read the record — so it still equals
`0` when the report prints the analysis duration. -/
theorem claim10_elapsedTime_frame (rootPath dirPath : String)
    (ign : String → Bool) (anz : String → String → AnalyzeResult)
    (pi : ProjectInfo) (es entries : List FSEntry) :
    (initialProjectInfo rootPath).elapsedTime = 0
    ∧ (traverseDirectory ign anz dirPath pi es).elapsedTime = pi.elapsedTime
    ∧ (runTraversal ign anz rootPath entries).elapsedTime = 0 :=
  ⟨rfl, traverseDirectory_elapsedTime ign anz dirPath pi es, by
    rw [runTraversal, traverseDirectory_elapsedTime]
    rfl⟩

end ProjectAnalyzer
